import Mathlib

/-!
Shallow embedding of the account-rotation core of `src/account_rotator.py`.

Time is modelled as an explicit integer parameter `now` (Python reads the
wall clock via `time.time()`; only order and additive structure of instants
matter to the rotator, so exact integer instants stand in for floats); each
top-level operation receives the instant at which it runs.  Mutation of
Python objects becomes explicit state passing:
`AccountState` methods return the updated record, and rotator-level
operations return the updated rotator.
-/

/-- One credentialed account's identity and live state
(`AccountState` dataclass, `account_rotator.py` lines 28-45). -/
structure AccountState where
  email : String
  credential_path : String
  credentials : String
  project_id : String
  request_timestamps : List ℤ
  total_requests : ℕ
  total_errors : ℕ
  is_healthy : Bool
  cooldown_until : ℤ
  consecutive_errors : ℕ
  last_error : Option String
  deriving Repr, DecidableEq

instance : Inhabited AccountState :=
  ⟨⟨"", "", "", "", [], 0, 0, true, 0, 0, none⟩⟩

namespace AccountState

/-- `AccountState.is_available` (lines 47-50): healthy and past cooldown. -/
def is_available (a : AccountState) (now : ℤ) : Bool :=
  a.is_healthy && decide (a.cooldown_until < now)

/-- `AccountState.requests_in_window` (lines 52-57): destructively prunes
timestamps at or before `now - window_seconds`, returns the pruned state
together with the count of surviving timestamps. -/
def requests_in_window (a : AccountState) (window_seconds now : ℤ) :
    AccountState × ℕ :=
  let cutoff := now - window_seconds
  let kept := a.request_timestamps.filter (fun t => decide (cutoff < t))
  ({ a with request_timestamps := kept }, kept.length)

/-- `AccountState.record_request` (lines 59-64): append the current instant,
bump the total counter, reset the consecutive-error count. -/
def record_request (a : AccountState) (now : ℤ) : AccountState :=
  { a with
    request_timestamps := a.request_timestamps ++ [now]
    total_requests := a.total_requests + 1
    consecutive_errors := 0 }

/-- `AccountState.record_error` (lines 66-83): bump error counters, store the
message; on a rate-limit error set an exponential-backoff cooldown, otherwise
disable the account after five consecutive errors. -/
def record_error (a : AccountState) (error_msg : String)
    (is_rate_limit : Bool) (now : ℤ) : AccountState :=
  let b := { a with
    total_errors := a.total_errors + 1
    consecutive_errors := a.consecutive_errors + 1
    last_error := some error_msg }
  if is_rate_limit then
    let backoff : ℕ := min (30 * 2 ^ (b.consecutive_errors - 1)) 300
    { b with cooldown_until := now + (backoff : ℤ) }
  else if 5 ≤ b.consecutive_errors then
    { b with is_healthy := false }
  else
    b

end AccountState

/-- The rotator's persistent state (`AccountRotator.__init__`, lines 96-110):
the ordered account pool, the shared rotation cursor, and the two
configuration values fixed at construction. -/
structure AccountRotator where
  accounts : List AccountState
  current_index : ℕ
  max_rpm : ℕ
  min_gap_s : ℤ
  deriving Repr

namespace AccountRotator

/-- `AccountRotator.available_accounts` (lines 145-148), as the list of
indices (in load order) of the accounts that are currently available. -/
def available_indices (accs : List AccountState) (now : ℤ) : List ℕ :=
  (List.range accs.length).filter
    (fun i => (accs.getD i default).is_available now)

/-- The selection loop of `AccountRotator.get_next_account` (lines 163-178):
examine up to `fuel` candidates from `avail` starting at `cursor mod n`,
advancing the cursor on every candidate, pruning each examined account's
timestamp list through `requests_in_window`, and returning the first
candidate under the per-minute ceiling with nothing in the min-gap window. -/
def select_loop (now : ℤ) (maxRpm : ℕ) (minGap : ℤ) :
    List AccountState → List ℕ → ℕ → ℕ → List AccountState × ℕ × Option ℕ
  | accs, _, cursor, 0 => (accs, cursor, none)
  | accs, avail, cursor, fuel + 1 =>
    let n := avail.length
    let i := avail.getD (cursor % n) 0
    let a := accs.getD i default
    let cursor1 := (cursor + 1) % n
    let p60 := a.requests_in_window 60 now
    if maxRpm ≤ p60.2 then
      select_loop now maxRpm minGap (accs.set i p60.1) avail cursor1 fuel
    else
      let pg := p60.1.requests_in_window minGap now
      if 0 < pg.2 then
        select_loop now maxRpm minGap (accs.set i pg.1) avail cursor1 fuel
      else
        (accs.set i pg.1, cursor1, some i)

/-- `AccountRotator.get_next_account` (lines 150-181): returns the index of
the selected account (or `none`) together with the updated rotator state. -/
def get_next_account (r : AccountRotator) (now : ℤ) :
    AccountRotator × Option ℕ :=
  let avail := available_indices r.accounts now
  if avail.isEmpty then (r, none)
  else
    let out := select_loop now r.max_rpm r.min_gap_s r.accounts avail
      r.current_index avail.length
    ({ r with accounts := out.1, current_index := out.2.1 }, out.2.2)

/-- `AccountRotator.record_success` (lines 183-185): forwards to
`AccountState.record_request` on the given account. -/
def record_success (_r : AccountRotator) (a : AccountState) (now : ℤ) :
    AccountState :=
  a.record_request now

/-- `AccountRotator.record_error` (lines 187-190): classifies the status code
as rate-limit-class iff it is 429 or 503, then forwards to
`AccountState.record_error`. -/
def record_error (_r : AccountRotator) (a : AccountState)
    (status_code : ℤ) (error_msg : String) (now : ℤ) : AccountState :=
  a.record_error error_msg (status_code = 429 || status_code = 503) now

/-- `AccountRotator.reload_credentials` (lines 214-223): for each account,
re-read its credential file and replace the stored credentials in place; a
failed read (`none`) leaves the account unchanged.  `read_file` models the
filesystem read. -/
def reload_credentials (r : AccountRotator)
    (read_file : String → Option String) : AccountRotator :=
  { r with
    accounts := r.accounts.map (fun a =>
      match read_file a.credential_path with
      | some creds => { a with credentials := creds }
      | none => a) }

end AccountRotator

open AccountRotator

/-- The acceptance test applied to a candidate inside the selection loop:
strictly under the per-minute ceiling, and nothing recorded inside the
minimum-gap window (after the 60-second prune, exactly as the code reads
it). -/
def passes_checks (a : AccountState) (now : ℤ) (maxRpm : ℕ) (minGap : ℤ) :
    Bool :=
  let p60 := a.requests_in_window 60 now
  decide (p60.2 < maxRpm) &&
    decide ((p60.1.requests_in_window minGap now).2 = 0)

/-- The account state left behind by the two destructive window reads the
selection loop performs on an examined candidate. -/
def pruned_by_checks (a : AccountState) (now : ℤ) (minGap : ℤ) :
    AccountState :=
  ((a.requests_in_window 60 now).1.requests_in_window minGap now).1

/-- A sequence of `AccountRotator.record_error` calls on one account; each
call is a triple of status code, message and instant. -/
def apply_errors (r : AccountRotator) (calls : List (ℤ × String × ℤ))
    (a : AccountState) : AccountState :=
  calls.foldl (fun acc c => r.record_error acc c.1 c.2.1 c.2.2) a

/-- One dispatcher round: call `get_next_account` at instant `t`, and if an
account is returned record a success on it at instant `s`; iterate over the
given list of `(t, s)` pairs, collecting the selection results. -/
def serve_trace (r : AccountRotator) :
    List (ℤ × ℤ) → AccountRotator × List (Option ℕ)
  | [] => (r, [])
  | (t, s) :: rest =>
    let step := r.get_next_account t
    let r2 : AccountRotator :=
      match step.2 with
      | some i =>
        { step.1 with
          accounts := step.1.accounts.set i
            (step.1.record_success (step.1.accounts.getD i default) s) }
      | none => step.1
    let out := serve_trace r2 rest
    (out.1, step.2 :: out.2)

/-- Concrete account for the n = 4 backoff evaluation: three consecutive
errors already recorded, healthy, no cooldown. -/
def acct_three_errors : AccountState :=
  ⟨"a@b.c", "p", "c", "pr", [], 0, 3, true, 0, 3, none⟩

/-- Concrete rotator with default configuration (10 rpm, 2 s gap). -/
def rot_plain : AccountRotator := ⟨[], 0, 10, 2⟩

/-- Concrete account with a single success recorded at instant 0. -/
def acct_one_success : AccountState :=
  ⟨"a@b.c", "p", "c", "pr", [0], 1, 0, true, 0, 0, none⟩

/-- Concrete freshly-loaded account: no history, healthy, no cooldown. -/
def acct_fresh : AccountState :=
  ⟨"a@b.c", "p", "c", "pr", [], 0, 0, true, 0, 0, none⟩

/-- Five consecutive non-rate-limit error calls (status 500). -/
def calls_five : List (ℤ × String × ℤ) :=
  [(500, "e", 1), (500, "e", 2), (500, "e", 3), (500, "e", 4), (500, "e", 5)]

/-- Four consecutive non-rate-limit error calls (status 500). -/
def calls_four : List (ℤ × String × ℤ) :=
  [(500, "e", 1), (500, "e", 2), (500, "e", 3), (500, "e", 4)]

/-- Concrete rotator holding one fresh account. -/
def rot_one : AccountRotator := ⟨[acct_fresh], 0, 10, 2⟩

/-- Concrete account in cooldown until instant 100. -/
def acct_cooling : AccountState :=
  ⟨"a@b.c", "p", "c", "pr", [], 0, 1, true, 100, 1, none⟩

/-- Concrete rotator whose only account is in cooldown. -/
def rot_cooling : AccountRotator := ⟨[acct_cooling], 0, 10, 2⟩

/-- Concrete rotator whose per-minute ceiling is zero, so every candidate
is skipped by the rate check. -/
def rot_zero_rpm : AccountRotator := ⟨[acct_fresh], 0, 0, 2⟩

/-- Concrete account that has been disabled. -/
def acct_dead : AccountState :=
  ⟨"a@b.c", "p", "c", "pr", [], 0, 5, false, 0, 5, some "e"⟩

/-- Concrete rotator whose only account is disabled. -/
def rot_dead : AccountRotator := ⟨[acct_dead], 0, 10, 2⟩

/-- Concrete rotator with three fresh accounts and a non-zero cursor. -/
def rot_three : AccountRotator :=
  ⟨[acct_fresh, acct_fresh, acct_fresh], 2, 10, 2⟩

/-- Three call/success instant pairs for the fairness scenario. -/
def times_three : List (ℤ × ℤ) := [(10, 11), (12, 13), (14, 15)]

/-! ## Basic lemmas about outcome recording -/

lemma record_error_consecutive (a : AccountState) (msg : String) (rl : Bool)
    (now : ℤ) :
    (a.record_error msg rl now).consecutive_errors =
      a.consecutive_errors + 1 := by
  simp only [AccountState.record_error]
  split_ifs <;> rfl

lemma record_error_cooldown_rl (a : AccountState) (msg : String) (now : ℤ) :
    (a.record_error msg true now).cooldown_until =
      now + ((min (30 * 2 ^ a.consecutive_errors) 300 : ℕ) : ℤ) := by
  simp [AccountState.record_error]

lemma rot_record_error_rl (r : AccountRotator) (a : AccountState) (sc : ℤ)
    (msg : String) (now : ℤ) (h : sc = 429 ∨ sc = 503) :
    r.record_error a sc msg now = a.record_error msg true now := by
  rcases h with h | h <;> subst h <;> simp [AccountRotator.record_error]

lemma rot_record_error_non_rl (r : AccountRotator) (a : AccountState)
    (sc : ℤ) (msg : String) (now : ℤ) (h1 : sc ≠ 429) (h2 : sc ≠ 503) :
    r.record_error a sc msg now = a.record_error msg false now := by
  simp [AccountRotator.record_error, h1, h2]

/-- **C1** (amended).  A `recordError` call with status 429 or 503 increments
`consecutiveErrors` to `n` and sets `cooldownUntil` to the call time plus
`min(30 * 2^(n-1), 300)` seconds; this backoff is 30 s for n = 1, 60 s for
n = 2, 120 s for n = 3, 240 s for n = 4 and 300 s for every n ≥ 5. -/
theorem rate_limit_backoff (r : AccountRotator) (a : AccountState) (sc : ℤ)
    (msg : String) (now : ℤ) (h : sc = 429 ∨ sc = 503) :
    (r.record_error a sc msg now).consecutive_errors =
      a.consecutive_errors + 1 ∧
    (r.record_error a sc msg now).cooldown_until =
      now + ((min (30 * 2 ^ ((r.record_error a sc msg now).consecutive_errors
        - 1)) 300 : ℕ) : ℤ) ∧
    (a.consecutive_errors + 1 = 1 →
      (r.record_error a sc msg now).cooldown_until = now + 30) ∧
    (a.consecutive_errors + 1 = 2 →
      (r.record_error a sc msg now).cooldown_until = now + 60) ∧
    (a.consecutive_errors + 1 = 3 →
      (r.record_error a sc msg now).cooldown_until = now + 120) ∧
    (a.consecutive_errors + 1 = 4 →
      (r.record_error a sc msg now).cooldown_until = now + 240) ∧
    (5 ≤ a.consecutive_errors + 1 →
      (r.record_error a sc msg now).cooldown_until = now + 300) := by
  rw [rot_record_error_rl r a sc msg now h]
  rw [record_error_consecutive, record_error_cooldown_rl]
  refine ⟨rfl, by rw [Nat.add_sub_cancel], ?_, ?_, ?_, ?_, ?_⟩
  · intro hn
    have hc : a.consecutive_errors = 0 := by omega
    rw [hc]; norm_num
  · intro hn
    have hc : a.consecutive_errors = 1 := by omega
    rw [hc]; norm_num
  · intro hn
    have hc : a.consecutive_errors = 2 := by omega
    rw [hc]; norm_num
  · intro hn
    have hc : a.consecutive_errors = 3 := by omega
    rw [hc]; norm_num
  · intro hn
    have hc : 4 ≤ a.consecutive_errors := by omega
    have h16 : (16 : ℕ) ≤ 2 ^ a.consecutive_errors := by
      calc (16 : ℕ) = 2 ^ 4 := by norm_num
      _ ≤ 2 ^ a.consecutive_errors := Nat.pow_le_pow_right (by norm_num) hc
    have hmin : min (30 * 2 ^ a.consecutive_errors) 300 = 300 :=
      min_eq_right (by omega)
    rw [hmin]; norm_num

/-- Witness for `rate_limit_backoff` at a concrete input. -/
theorem rate_limit_backoff_witness :
    ((429 : ℤ) = 429 ∨ (429 : ℤ) = 503) ∧
    ((rot_plain.record_error acct_one_success 429 "e" 7).consecutive_errors =
      acct_one_success.consecutive_errors + 1 ∧
    (rot_plain.record_error acct_one_success 429 "e" 7).cooldown_until =
      7 + ((min (30 * 2 ^
        ((rot_plain.record_error acct_one_success 429 "e" 7).consecutive_errors
          - 1)) 300 : ℕ) : ℤ) ∧
    (acct_one_success.consecutive_errors + 1 = 1 →
      (rot_plain.record_error acct_one_success 429 "e" 7).cooldown_until =
        7 + 30) ∧
    (acct_one_success.consecutive_errors + 1 = 2 →
      (rot_plain.record_error acct_one_success 429 "e" 7).cooldown_until =
        7 + 60) ∧
    (acct_one_success.consecutive_errors + 1 = 3 →
      (rot_plain.record_error acct_one_success 429 "e" 7).cooldown_until =
        7 + 120) ∧
    (acct_one_success.consecutive_errors + 1 = 4 →
      (rot_plain.record_error acct_one_success 429 "e" 7).cooldown_until =
        7 + 240) ∧
    (5 ≤ acct_one_success.consecutive_errors + 1 →
      (rot_plain.record_error acct_one_success 429 "e" 7).cooldown_until =
        7 + 300)) :=
  ⟨Or.inl rfl,
    rate_limit_backoff rot_plain acct_one_success 429 "e" 7 (Or.inl rfl)⟩

/-- **C1** counterexample.  On an account with three consecutive errors, a
fourth rate-limit error (n = 4) produces a backoff of 240 s, not the 300 s
the claim asserts for every n ≥ 4. -/
theorem rate_limit_backoff_n4_is_240 :
    (rot_plain.record_error acct_three_errors 429 "e" 0).consecutive_errors
      = 4 ∧
    (rot_plain.record_error acct_three_errors 429 "e" 0).cooldown_until
      = 240 ∧
    ¬ (rot_plain.record_error acct_three_errors 429 "e" 0).cooldown_until
      = 0 + 300 := by
  decide

/-- **C2** (code bug, evaluated).  One success was recorded at instant 0; at
instant 10 a minimum-gap read (`window = 2`) destructively prunes the
timestamp away, so the very next 60-second read returns 0 even though
exactly one success lies within the last 60 seconds. -/
theorem gap_read_destroys_sixty_second_window :
    (acct_one_success.requests_in_window 2 10).2 = 0 ∧
    ((acct_one_success.requests_in_window 2 10).1.requests_in_window
      60 10).2 = 0 ∧
    (acct_one_success.request_timestamps.filter
      (fun t => decide ((10 : ℤ) - 60 < t))).length = 1 := by
  decide

lemma record_error_healthy_non_rl (a : AccountState) (msg : String)
    (now : ℤ) :
    ((a.record_error msg false now).is_healthy = true ↔
      (a.is_healthy = true ∧ a.consecutive_errors + 1 < 5)) := by
  simp only [AccountState.record_error]
  by_cases h5 : 5 ≤ a.consecutive_errors + 1
  · simp [h5]
  · simp [h5]; omega

lemma apply_errors_non_rl_spec (r : AccountRotator) :
    ∀ (calls : List (ℤ × String × ℤ)) (a : AccountState),
      (∀ c ∈ calls, c.1 ≠ 429 ∧ c.1 ≠ 503) →
      (apply_errors r calls a).consecutive_errors
          = a.consecutive_errors + calls.length ∧
      ((apply_errors r calls a).is_healthy = true ↔
        (a.is_healthy = true ∧
          (calls.length = 0 ∨ a.consecutive_errors + calls.length < 5))) := by
  intro calls
  induction calls with
  | nil => intro a _; simp [apply_errors]
  | cons c rest ih =>
    intro a h
    have hc := h c (List.mem_cons_self c rest)
    have hrest : ∀ x ∈ rest, x.1 ≠ 429 ∧ x.1 ≠ 503 :=
      fun x hx => h x (List.mem_cons_of_mem c hx)
    have step : apply_errors r (c :: rest) a
        = apply_errors r rest (r.record_error a c.1 c.2.1 c.2.2) := rfl
    rw [step, rot_record_error_non_rl r a c.1 c.2.1 c.2.2 hc.1 hc.2]
    obtain ⟨ih1, ih2⟩ := ih (a.record_error c.2.1 false c.2.2) hrest
    have hb1 := record_error_consecutive a c.2.1 false c.2.2
    have hb2 := record_error_healthy_non_rl a c.2.1 c.2.2
    refine ⟨by rw [ih1, hb1]; simp [List.length_cons]; omega, ?_⟩
    rw [ih2, hb1, hb2]
    constructor
    · rintro ⟨⟨h1, h2⟩, h3⟩
      rcases h3 with h3 | h3
      · exact ⟨h1, Or.inr (by simp [List.length_cons, h3]; omega)⟩
      · exact ⟨h1, Or.inr (by simp [List.length_cons] at h3 ⊢; omega)⟩
    · rintro ⟨h1, h2⟩
      refine ⟨⟨h1, by simp [List.length_cons] at h2; omega⟩, ?_⟩
      rcases h2 with h2 | h2
      · simp at h2
      · exact Or.inr (by simp [List.length_cons] at h2 ⊢; omega)

/-- **C6**.  Starting from a healthy account with no consecutive errors,
five consecutive non-rate-limit `recordError` calls (status neither 429 nor
503, no intervening success) set `isHealthy` to false, while four such
calls leave it true. -/
theorem five_consecutive_errors_disable (r : AccountRotator)
    (calls : List (ℤ × String × ℤ)) (a : AccountState)
    (hnr : ∀ c ∈ calls, c.1 ≠ 429 ∧ c.1 ≠ 503)
    (ha : a.is_healthy = true) (hc : a.consecutive_errors = 0) :
    (calls.length = 5 → (apply_errors r calls a).is_healthy = false) ∧
    (calls.length = 4 → (apply_errors r calls a).is_healthy = true) := by
  obtain ⟨-, hiff⟩ := apply_errors_non_rl_spec r calls a hnr
  constructor
  · intro h5
    cases hb : (apply_errors r calls a).is_healthy
    · rfl
    · exfalso
      obtain ⟨-, hor⟩ := hiff.mp hb
      rw [h5, hc] at hor
      omega
  · intro h4
    exact hiff.mpr ⟨ha, by rw [h4, hc]; omega⟩

/-- Witness for `five_consecutive_errors_disable` at concrete inputs: five
status-500 errors disable a fresh account, four do not. -/
theorem five_consecutive_errors_disable_witness :
    ((∀ c ∈ calls_five, c.1 ≠ 429 ∧ c.1 ≠ 503) ∧
      (apply_errors rot_plain calls_five acct_fresh).is_healthy = false) ∧
    ((∀ c ∈ calls_four, c.1 ≠ 429 ∧ c.1 ≠ 503) ∧
      (apply_errors rot_plain calls_four acct_fresh).is_healthy = true) :=
  ⟨⟨by decide,
      (five_consecutive_errors_disable rot_plain calls_five acct_fresh
        (by decide) (by decide) (by decide)).1 (by decide)⟩,
    ⟨by decide,
      (five_consecutive_errors_disable rot_plain calls_four acct_fresh
        (by decide) (by decide) (by decide)).2 (by decide)⟩⟩

/-- **C9**.  Recording a success resets `consecutiveErrors` to 0, so a
rate-limit (429/503) error recorded next yields a cooldown of exactly 30
seconds from its call time: the backoff growth curve restarts. -/
theorem success_resets_backoff (r : AccountRotator) (a : AccountState)
    (t1 t2 sc : ℤ) (msg : String) (h : sc = 429 ∨ sc = 503) :
    (a.record_request t1).consecutive_errors = 0 ∧
    (r.record_error (a.record_request t1) sc msg t2).cooldown_until
      = t2 + 30 := by
  refine ⟨rfl, ?_⟩
  rw [rot_record_error_rl _ _ _ _ _ h, record_error_cooldown_rl]
  norm_num [AccountState.record_request]

/-- Witness for `success_resets_backoff` at a concrete input. -/
theorem success_resets_backoff_witness :
    ((429 : ℤ) = 429 ∨ (429 : ℤ) = 503) ∧
    (acct_three_errors.record_request 3).consecutive_errors = 0 ∧
    (rot_plain.record_error (acct_three_errors.record_request 3) 429 "e"
      9).cooldown_until = 9 + 30 :=
  ⟨Or.inl rfl,
    success_resets_backoff rot_plain acct_three_errors 3 9 429 "e"
      (Or.inl rfl)⟩

/-- **C10**.  `recordError` never appends to `requestTimestamps`, whatever
the status code or rate-limit classification; only `recordSuccess`
(`record_request`) adds a timestamp, appending exactly the call instant. -/
theorem errors_never_append_timestamps (r : AccountRotator)
    (a : AccountState) (sc : ℤ) (msg : String) (rl : Bool) (t s : ℤ) :
    (r.record_error a sc msg t).request_timestamps = a.request_timestamps ∧
    (a.record_error msg rl t).request_timestamps = a.request_timestamps ∧
    (a.record_request s).request_timestamps
      = a.request_timestamps ++ [s] := by
  refine ⟨?_, ?_, rfl⟩ <;>
  · simp only [AccountRotator.record_error, AccountState.record_error]
    split_ifs <;> rfl

/-! ## Lemmas about the selection loop -/

lemma getD_of_lt {α : Type} (l : List α) (p : ℕ) (d : α)
    (hp : p < l.length) : l.getD p d = l[p] := by
  rw [List.getD_eq_getElem?_getD, List.getElem?_eq_getElem hp]
  rfl

lemma getD_set_of_ne {α : Type} (l : List α) (i j : ℕ) (b d : α)
    (hne : i ≠ j) : (l.set i b).getD j d = l.getD j d := by
  rw [List.getD_eq_getElem?_getD, List.getElem?_set_ne hne,
    ← List.getD_eq_getElem?_getD]

lemma getD_set_healthy (accs : List AccountState) (i j : ℕ)
    (b : AccountState)
    (hb : b.is_healthy = (accs.getD i default).is_healthy) :
    ((accs.set i b).getD j default).is_healthy
      = (accs.getD j default).is_healthy := by
  rcases eq_or_ne i j with rfl | hne
  · by_cases hl : i < accs.length
    · rw [List.getD_eq_getElem?_getD, List.getElem?_set_self hl]
      exact hb
    · rw [List.set_eq_of_length_le (Nat.le_of_not_lt hl)]
  · rw [getD_set_of_ne accs i j b default hne]

lemma avail_getD_ne (avail : List ℕ) (hnd : avail.Nodup) (p q : ℕ)
    (hp : p < avail.length) (hq : q < avail.length) (hpq : p ≠ q) :
    avail.getD p 0 ≠ avail.getD q 0 := by
  rw [getD_of_lt _ _ _ hp, getD_of_lt _ _ _ hq]
  intro he
  exact hpq (hnd.getElem_inj_iff.mp he)

lemma mod_shift_ne (cursor k n : ℕ) (hk : 0 < k) (hkn : k < n) :
    cursor % n ≠ (cursor + k) % n := by
  intro he
  have hn : 0 < n := by omega
  have h1 : (cursor + k) % n = (cursor % n + k % n) % n := Nat.add_mod cursor k n
  have hkk : k % n = k := Nat.mod_eq_of_lt hkn
  have hc : cursor % n < n := Nat.mod_lt _ hn
  rw [hkk] at h1
  rw [h1] at he
  rcases Nat.lt_or_ge (cursor % n + k) n with hlt | hge
  · rw [Nat.mod_eq_of_lt hlt] at he
    omega
  · have h2 : cursor % n + k - n < n := by omega
    have h3 : (cursor % n + k) % n = cursor % n + k - n := by
      rw [Nat.mod_eq_sub_mod hge, Nat.mod_eq_of_lt h2]
    rw [h3] at he
    omega

lemma select_loop_skip (now : ℤ) (maxRpm : ℕ) (minGap : ℤ)
    (avail : List ℕ) (accs : List AccountState) (cursor fuel : ℕ)
    (hfail : passes_checks
        (accs.getD (avail.getD (cursor % avail.length) 0) default)
        now maxRpm minGap = false) :
    ∃ b : AccountState,
      b.is_healthy = (accs.getD (avail.getD (cursor % avail.length) 0)
        default).is_healthy ∧
      select_loop now maxRpm minGap accs avail cursor (fuel + 1)
        = select_loop now maxRpm minGap
            (accs.set (avail.getD (cursor % avail.length) 0) b) avail
            ((cursor + 1) % avail.length) fuel := by
  by_cases hc : maxRpm ≤
      ((accs.getD (avail.getD (cursor % avail.length) 0)
        default).requests_in_window 60 now).2
  · refine ⟨((accs.getD (avail.getD (cursor % avail.length) 0)
        default).requests_in_window 60 now).1, rfl, ?_⟩
    simp only [select_loop]
    rw [if_pos hc]
  · have hg : 0 <
        (((accs.getD (avail.getD (cursor % avail.length) 0)
          default).requests_in_window 60 now).1.requests_in_window
          minGap now).2 := by
      by_contra hg0
      have hz :
          (((accs.getD (avail.getD (cursor % avail.length) 0)
            default).requests_in_window 60 now).1.requests_in_window
            minGap now).2 = 0 := by omega
      have ht : passes_checks
          (accs.getD (avail.getD (cursor % avail.length) 0) default)
          now maxRpm minGap = true := by
        simp only [passes_checks, Bool.and_eq_true, decide_eq_true_eq]
        exact ⟨by omega, hz⟩
      rw [ht] at hfail
      cases hfail
    refine ⟨(((accs.getD (avail.getD (cursor % avail.length) 0)
        default).requests_in_window 60 now).1.requests_in_window
        minGap now).1, rfl, ?_⟩
    simp only [select_loop]
    rw [if_neg hc, if_pos hg]

lemma select_loop_hit (now : ℤ) (maxRpm : ℕ) (minGap : ℤ)
    (avail : List ℕ) (accs : List AccountState) (cursor fuel : ℕ)
    (hpass : passes_checks
        (accs.getD (avail.getD (cursor % avail.length) 0) default)
        now maxRpm minGap = true) :
    select_loop now maxRpm minGap accs avail cursor (fuel + 1)
      = (accs.set (avail.getD (cursor % avail.length) 0)
          (pruned_by_checks
            (accs.getD (avail.getD (cursor % avail.length) 0) default)
            now minGap),
        (cursor + 1) % avail.length,
        some (avail.getD (cursor % avail.length) 0)) := by
  simp only [passes_checks, Bool.and_eq_true, decide_eq_true_eq] at hpass
  simp only [select_loop, pruned_by_checks]
  rw [if_neg (by omega), if_neg (by omega)]

lemma select_loop_preserves_health (now : ℤ) (maxRpm : ℕ) (minGap : ℤ)
    (avail : List ℕ) (fuel : ℕ) :
    ∀ (accs : List AccountState) (cursor j : ℕ),
      (((select_loop now maxRpm minGap accs avail cursor fuel).1).getD j
          default).is_healthy
        = (accs.getD j default).is_healthy := by
  induction fuel with
  | zero => intro accs cursor j; rfl
  | succ fuel ih =>
    intro accs cursor j
    simp only [select_loop]
    split_ifs with h1 h2
    · rw [ih]
      exact getD_set_healthy _ _ _ _ rfl
    · rw [ih]
      exact getD_set_healthy _ _ _ _ rfl
    · exact getD_set_healthy _ _ _ _ rfl

lemma select_loop_some_mem (now : ℤ) (maxRpm : ℕ) (minGap : ℤ)
    (avail : List ℕ) (hne : avail ≠ []) (fuel : ℕ) :
    ∀ (accs : List AccountState) (cursor i : ℕ),
      (select_loop now maxRpm minGap accs avail cursor fuel).2.2 = some i →
      i ∈ avail := by
  induction fuel with
  | zero => intro accs cursor i h; cases h
  | succ fuel ih =>
    intro accs cursor i h
    simp only [select_loop] at h
    split_ifs at h with h1 h2
    · exact ih _ _ _ h
    · exact ih _ _ _ h
    · have hn : 0 < avail.length := List.length_pos.mpr hne
      have hlt : cursor % avail.length < avail.length := Nat.mod_lt _ hn
      have hi : i = avail.getD (cursor % avail.length) 0 :=
        (Option.some.injEq _ _ ▸ h).symm
      rw [hi, getD_of_lt _ _ _ hlt]
      exact List.getElem_mem hlt

lemma select_loop_none_of_all_fail (now : ℤ) (maxRpm : ℕ) (minGap : ℤ)
    (avail : List ℕ) (hnd : avail.Nodup) (fuel : ℕ) :
    ∀ (accs : List AccountState) (cursor : ℕ),
      fuel ≤ avail.length →
      (∀ k < fuel, passes_checks
          (accs.getD (avail.getD ((cursor + k) % avail.length) 0) default)
          now maxRpm minGap = false) →
      (select_loop now maxRpm minGap accs avail cursor fuel).2.2
        = none := by
  induction fuel with
  | zero => intro accs cursor _ _; rfl
  | succ fuel ih =>
    intro accs cursor hle hall
    have hn : 0 < avail.length := by omega
    have h0 : passes_checks
        (accs.getD (avail.getD (cursor % avail.length) 0) default)
        now maxRpm minGap = false := by
      have := hall 0 (Nat.succ_pos _)
      rwa [Nat.add_zero] at this
    obtain ⟨b, -, hb⟩ :=
      select_loop_skip now maxRpm minGap avail accs cursor fuel h0
    rw [hb]
    apply ih _ _ (by omega)
    intro k hk
    have hpos : ((cursor + 1) % avail.length + k) % avail.length
        = (cursor + (k + 1)) % avail.length := by
      rw [Nat.mod_add_mod]
      congr 1
      omega
    rw [hpos]
    have hmod1 : cursor % avail.length < avail.length := Nat.mod_lt _ hn
    have hmod2 : (cursor + (k + 1)) % avail.length < avail.length :=
      Nat.mod_lt _ hn
    have hidx : avail.getD (cursor % avail.length) 0
        ≠ avail.getD ((cursor + (k + 1)) % avail.length) 0 :=
      avail_getD_ne avail hnd _ _ hmod1 hmod2
        (mod_shift_ne cursor (k + 1) avail.length (Nat.succ_pos _)
          (by omega))
    rw [getD_set_of_ne _ _ _ _ _ hidx]
    exact hall (k + 1) (by omega)

lemma select_loop_some_of_first_pass (now : ℤ) (maxRpm : ℕ) (minGap : ℤ)
    (avail : List ℕ) (hnd : avail.Nodup) (fuel : ℕ) :
    ∀ (accs : List AccountState) (cursor k : ℕ),
      fuel ≤ avail.length → k < fuel →
      (∀ j < k, passes_checks
          (accs.getD (avail.getD ((cursor + j) % avail.length) 0) default)
          now maxRpm minGap = false) →
      passes_checks
          (accs.getD (avail.getD ((cursor + k) % avail.length) 0) default)
          now maxRpm minGap = true →
      (select_loop now maxRpm minGap accs avail cursor fuel).2.2
          = some (avail.getD ((cursor + k) % avail.length) 0) ∧
      (select_loop now maxRpm minGap accs avail cursor fuel).2.1
          = (cursor + k + 1) % avail.length := by
  induction fuel with
  | zero => intro accs cursor k _ hk; omega
  | succ fuel ih =>
    intro accs cursor k hle hk hfails hpass
    have hn : 0 < avail.length := by omega
    cases k with
    | zero =>
      rw [Nat.add_zero] at hpass
      rw [Nat.add_zero,
        select_loop_hit now maxRpm minGap avail accs cursor fuel hpass]
      exact ⟨rfl, rfl⟩
    | succ k =>
      have h0 : passes_checks
          (accs.getD (avail.getD (cursor % avail.length) 0) default)
          now maxRpm minGap = false := by
        have := hfails 0 (Nat.succ_pos _)
        rwa [Nat.add_zero] at this
      obtain ⟨b, -, hb⟩ :=
        select_loop_skip now maxRpm minGap avail accs cursor fuel h0
      rw [hb]
      have hshift : ∀ m : ℕ,
          ((cursor + 1) % avail.length + m) % avail.length
            = (cursor + (m + 1)) % avail.length := by
        intro m
        rw [Nat.mod_add_mod]
        congr 1
        omega
      have hset : ∀ m : ℕ, m + 1 < avail.length →
          (accs.set (avail.getD (cursor % avail.length) 0) b).getD
              (avail.getD ((cursor + (m + 1)) % avail.length) 0) default
            = accs.getD
              (avail.getD ((cursor + (m + 1)) % avail.length) 0) default := by
        intro m hm
        have hmod1 : cursor % avail.length < avail.length := Nat.mod_lt _ hn
        have hmod2 : (cursor + (m + 1)) % avail.length < avail.length :=
          Nat.mod_lt _ hn
        exact getD_set_of_ne _ _ _ _ _
          (avail_getD_ne avail hnd _ _ hmod1 hmod2
            (mod_shift_ne cursor (m + 1) avail.length (Nat.succ_pos _) hm))
      obtain ⟨hres, hcur⟩ := ih (accs.set (avail.getD (cursor % avail.length) 0) b)
        ((cursor + 1) % avail.length) k (by omega) (by omega)
        (by
          intro j hj
          rw [hshift j, hset j (by omega)]
          exact hfails (j + 1) (by omega))
        (by
          rw [hshift k, hset k (by omega)]
          exact hpass)
      constructor
      · rw [hres, hshift k]
      · rw [hcur]
        have : (cursor + 1) % avail.length + k + 1
            = (cursor + 1) % avail.length + (k + 1) := by omega
        rw [this, Nat.mod_add_mod]
        congr 1
        omega

/-! ## Lemmas about get_next_account -/

lemma passes_checks_iff (a : AccountState) (now : ℤ) (maxRpm : ℕ)
    (minGap : ℤ) :
    passes_checks a now maxRpm minGap = true ↔
      ((a.requests_in_window 60 now).2 < maxRpm ∧
        ((a.requests_in_window 60 now).1.requests_in_window minGap
          now).2 = 0) := by
  simp [passes_checks, Bool.and_eq_true, decide_eq_true_eq]

lemma mem_available_indices (accs : List AccountState) (now : ℤ) (i : ℕ) :
    i ∈ available_indices accs now ↔
      i < accs.length ∧ (accs.getD i default).is_available now = true := by
  simp [available_indices, List.mem_filter, List.mem_range]

lemma available_indices_nodup (accs : List AccountState) (now : ℤ) :
    (available_indices accs now).Nodup :=
  List.Nodup.filter _ (List.nodup_range _)

lemma get_next_account_empty (r : AccountRotator) (now : ℤ)
    (h : available_indices r.accounts now = []) :
    r.get_next_account now = (r, none) := by
  simp only [AccountRotator.get_next_account]
  rw [if_pos (List.isEmpty_iff.mpr h)]

lemma get_next_account_nonempty (r : AccountRotator) (now : ℤ)
    (h : available_indices r.accounts now ≠ []) :
    (r.get_next_account now).2
      = (select_loop now r.max_rpm r.min_gap_s r.accounts
          (available_indices r.accounts now) r.current_index
          (available_indices r.accounts now).length).2.2 ∧
    (r.get_next_account now).1.accounts
      = (select_loop now r.max_rpm r.min_gap_s r.accounts
          (available_indices r.accounts now) r.current_index
          (available_indices r.accounts now).length).1 ∧
    (r.get_next_account now).1.current_index
      = (select_loop now r.max_rpm r.min_gap_s r.accounts
          (available_indices r.accounts now) r.current_index
          (available_indices r.accounts now).length).2.1 ∧
    (r.get_next_account now).1.max_rpm = r.max_rpm ∧
    (r.get_next_account now).1.min_gap_s = r.min_gap_s := by
  simp only [AccountRotator.get_next_account]
  rw [if_neg (fun hc => h (List.isEmpty_iff.mp hc))]
  exact ⟨rfl, rfl, rfl, rfl, rfl⟩

/-- **C3**.  `get_next_account` never returns an unavailable account: every
returned index points at an account that is available at call time, i.e.
healthy with the call time strictly greater than `cooldownUntil`. -/
theorem selected_account_available (r : AccountRotator) (now : ℤ) (i : ℕ)
    (h : (r.get_next_account now).2 = some i) :
    i < r.accounts.length ∧
    (r.accounts.getD i default).is_available now = true ∧
    (r.accounts.getD i default).is_healthy = true ∧
    (r.accounts.getD i default).cooldown_until < now := by
  by_cases hav : available_indices r.accounts now = []
  · rw [get_next_account_empty r now hav] at h
    cases h
  · rw [(get_next_account_nonempty r now hav).1] at h
    have hmem := select_loop_some_mem now r.max_rpm r.min_gap_s _ hav _ _ _ _ h
    obtain ⟨hlt, hava⟩ := (mem_available_indices _ _ _).mp hmem
    have hsplit := hava
    simp only [AccountState.is_available, Bool.and_eq_true,
      decide_eq_true_eq] at hsplit
    exact ⟨hlt, hava, hsplit.1, hsplit.2⟩

/-- Witness for `selected_account_available` at a concrete input. -/
theorem selected_account_available_witness :
    (rot_one.get_next_account 5).2 = some 0 ∧
    (0 < rot_one.accounts.length ∧
      (rot_one.accounts.getD 0 default).is_available 5 = true ∧
      (rot_one.accounts.getD 0 default).is_healthy = true ∧
      (rot_one.accounts.getD 0 default).cooldown_until < 5) :=
  ⟨by decide, selected_account_available rot_one 5 0 (by decide)⟩

/-- **C8**.  `get_next_account` signals exhaustion with `none`, never an
exception (the embedding is a total function): an empty pool returns `none`
with the state unchanged, a pool with no available account (cooldown or
disabled) returns `none` with the state unchanged, and a pool in which
every available account is skipped by the rate-limit and minimum-gap checks
returns `none`. -/
theorem exhausted_selection_returns_none (r : AccountRotator) (now : ℤ) :
    (r.accounts = [] → r.get_next_account now = (r, none)) ∧
    ((∀ a ∈ r.accounts, a.is_available now = false) →
      r.get_next_account now = (r, none)) ∧
    ((∀ i ∈ available_indices r.accounts now,
        passes_checks (r.accounts.getD i default) now r.max_rpm r.min_gap_s
          = false) →
      (r.get_next_account now).2 = none) := by
  refine ⟨?_, ?_, ?_⟩
  · intro h
    apply get_next_account_empty
    rw [available_indices, h]
    rfl
  · intro h
    apply get_next_account_empty
    apply List.filter_eq_nil_iff.mpr
    intro i hi
    have hlt : i < r.accounts.length := List.mem_range.mp hi
    have hmem : r.accounts.getD i default ∈ r.accounts := by
      rw [getD_of_lt _ _ _ hlt]
      exact List.getElem_mem hlt
    simp only [Bool.not_eq_true]
    exact h _ hmem
  · intro h
    by_cases hav : available_indices r.accounts now = []
    · rw [get_next_account_empty r now hav]
    · rw [(get_next_account_nonempty r now hav).1]
      have hn : 0 < (available_indices r.accounts now).length :=
        List.length_pos.mpr hav
      apply select_loop_none_of_all_fail now r.max_rpm r.min_gap_s _
        (available_indices_nodup r.accounts now) _ _ _ le_rfl
      intro k _
      apply h
      have hlt : (r.current_index + k) % (available_indices r.accounts
          now).length < (available_indices r.accounts now).length :=
        Nat.mod_lt _ hn
      rw [getD_of_lt _ _ _ hlt]
      exact List.getElem_mem hlt

/-- Witness for `exhausted_selection_returns_none`: the three exhaustion
shapes at concrete inputs (empty pool, pool fully in cooldown, pool whose
only available account is skipped by the zero-rpm ceiling). -/
theorem exhausted_selection_returns_none_witness :
    (rot_plain.get_next_account 0 = (rot_plain, none)) ∧
    (rot_cooling.get_next_account 5 = (rot_cooling, none)) ∧
    ((rot_zero_rpm.get_next_account 5).2 = none) :=
  ⟨(exhausted_selection_returns_none rot_plain 0).1 rfl,
    (exhausted_selection_returns_none rot_cooling 5).2.1 (by decide),
    (exhausted_selection_returns_none rot_zero_rpm 5).2.2 (by decide)⟩

/-- **C4**.  A returned account is the first candidate in rotation order
(starting at the cursor over the available list) that passes both rate
checks: its 60-second window count is strictly below `maxRequestsPerMinute`
and its minimum-gap window count (read on the state left by the 60-second
read, exactly as the code does) is zero; every candidate examined before it
failed one of the two checks, and the cursor advanced once per examined
candidate. -/
theorem selected_account_first_passing (r : AccountRotator) (now : ℤ)
    (i : ℕ) (h : (r.get_next_account now).2 = some i) :
    ∃ k, k < (available_indices r.accounts now).length ∧
      i = (available_indices r.accounts now).getD
        ((r.current_index + k) % (available_indices r.accounts now).length)
        0 ∧
      (∀ j < k, passes_checks
        (r.accounts.getD ((available_indices r.accounts now).getD
          ((r.current_index + j) %
            (available_indices r.accounts now).length) 0) default)
        now r.max_rpm r.min_gap_s = false) ∧
      ((r.accounts.getD i default).requests_in_window 60 now).2
        < r.max_rpm ∧
      (((r.accounts.getD i default).requests_in_window
        60 now).1.requests_in_window r.min_gap_s now).2 = 0 ∧
      (r.get_next_account now).1.current_index
        = (r.current_index + k + 1) %
          (available_indices r.accounts now).length := by
  by_cases hav : available_indices r.accounts now = []
  · rw [get_next_account_empty r now hav] at h
    cases h
  · have hnd := available_indices_nodup r.accounts now
    have hres := (get_next_account_nonempty r now hav).1
    have hcurs := (get_next_account_nonempty r now hav).2.2.1
    rw [hres] at h
    have hn : 0 < (available_indices r.accounts now).length :=
      List.length_pos.mpr hav
    have hex : ∃ k, k < (available_indices r.accounts now).length ∧
        passes_checks (r.accounts.getD ((available_indices r.accounts
          now).getD ((r.current_index + k) % (available_indices r.accounts
            now).length) 0) default) now r.max_rpm r.min_gap_s = true := by
      by_contra hno
      push_neg at hno
      have hall : ∀ k < (available_indices r.accounts now).length,
          passes_checks (r.accounts.getD ((available_indices r.accounts
            now).getD ((r.current_index + k) % (available_indices
              r.accounts now).length) 0) default) now r.max_rpm
            r.min_gap_s = false :=
        fun k hk => Bool.eq_false_iff.mpr (hno k hk)
      rw [select_loop_none_of_all_fail now r.max_rpm r.min_gap_s _ hnd _ _
        _ le_rfl hall] at h
      cases h
    obtain ⟨hkn, hkpass⟩ := Nat.find_spec hex
    have hfails : ∀ j < Nat.find hex, passes_checks
        (r.accounts.getD ((available_indices r.accounts now).getD
          ((r.current_index + j) % (available_indices r.accounts
            now).length) 0) default) now r.max_rpm r.min_gap_s = false := by
      intro j hj
      have hjn : j < (available_indices r.accounts now).length :=
        lt_trans hj hkn
      exact Bool.eq_false_iff.mpr
        (fun hp => Nat.find_min hex hj ⟨hjn, hp⟩)
    obtain ⟨hsome, hcur⟩ := select_loop_some_of_first_pass now r.max_rpm
      r.min_gap_s _ hnd _ r.accounts r.current_index (Nat.find hex) le_rfl
      hkn hfails hkpass
    rw [hsome] at h
    have hi : i = (available_indices r.accounts now).getD
        ((r.current_index + Nat.find hex) % (available_indices r.accounts
          now).length) 0 := by
      exact ((Option.some.injEq _ _) ▸ h).symm
    subst hi
    exact ⟨Nat.find hex, hkn, rfl, hfails,
      ((passes_checks_iff _ _ _ _).mp hkpass).1,
      ((passes_checks_iff _ _ _ _).mp hkpass).2,
      by rw [hcurs, hcur]⟩

/-- Witness for `selected_account_first_passing` at a concrete input. -/
theorem selected_account_first_passing_witness :
    (rot_one.get_next_account 5).2 = some 0 ∧
    (∃ k, k < (available_indices rot_one.accounts 5).length ∧
      0 = (available_indices rot_one.accounts 5).getD
        ((rot_one.current_index + k) %
          (available_indices rot_one.accounts 5).length) 0 ∧
      (∀ j < k, passes_checks
        (rot_one.accounts.getD ((available_indices rot_one.accounts 5).getD
          ((rot_one.current_index + j) %
            (available_indices rot_one.accounts 5).length) 0) default)
        5 rot_one.max_rpm rot_one.min_gap_s = false) ∧
      ((rot_one.accounts.getD 0 default).requests_in_window 60 5).2
        < rot_one.max_rpm ∧
      (((rot_one.accounts.getD 0 default).requests_in_window
        60 5).1.requests_in_window rot_one.min_gap_s 5).2 = 0 ∧
      (rot_one.get_next_account 5).1.current_index
        = (rot_one.current_index + k + 1) %
          (available_indices rot_one.accounts 5).length) :=
  ⟨by decide, selected_account_first_passing rot_one 5 0 (by decide)⟩

/-! ## Permanence of the unhealthy flag -/

lemma get_next_account_preserves_health (r : AccountRotator) (now : ℤ)
    (i : ℕ) :
    ((r.get_next_account now).1.accounts.getD i default).is_healthy
      = (r.accounts.getD i default).is_healthy := by
  by_cases hav : available_indices r.accounts now = []
  · rw [get_next_account_empty r now hav]
  · rw [(get_next_account_nonempty r now hav).2.1]
    exact select_loop_preserves_health _ _ _ _ _ _ _ _

lemma reload_preserves_health (r : AccountRotator)
    (rf : String → Option String) (i : ℕ) :
    ((r.reload_credentials rf).accounts.getD i default).is_healthy
      = (r.accounts.getD i default).is_healthy := by
  simp only [AccountRotator.reload_credentials]
  by_cases hl : i < r.accounts.length
  · rw [List.getD_eq_getElem?_getD, List.getD_eq_getElem?_getD,
      List.getElem?_map, List.getElem?_eq_getElem hl]
    rcases hread : rf (r.accounts[i].credential_path) with - | c <;>
      simp [hread]
  · have h1 : r.accounts[i]? = none :=
      List.getElem?_eq_none (Nat.le_of_not_lt hl)
    have h2 : (r.accounts.map (fun a =>
        match rf a.credential_path with
        | some creds => { a with credentials := creds }
        | none => a))[i]? = none := by
      apply List.getElem?_eq_none
      rw [List.length_map]
      exact Nat.le_of_not_lt hl
    rw [List.getD_eq_getElem?_getD, List.getD_eq_getElem?_getD, h1, h2]

/-- **C7**.  Once an account's `isHealthy` is false it stays false under
every core operation: recording a success, recording any error (at both the
state and the rotator level), a window read, a `get_next_account` call, and
`reload_credentials` (reloading replaces only the stored credentials and
does not clear `isHealthy`). -/
theorem unhealthy_is_permanent (r : AccountRotator) (a : AccountState)
    (msg : String) (rl : Bool) (sc w t now : ℤ)
    (rf : String → Option String) (i : ℕ)
    (ha : a.is_healthy = false) :
    (a.record_request t).is_healthy = false ∧
    (a.record_error msg rl t).is_healthy = false ∧
    ((a.requests_in_window w t).1).is_healthy = false ∧
    (r.record_error a sc msg t).is_healthy = false ∧
    ((r.accounts.getD i default).is_healthy = false →
      ((r.get_next_account now).1.accounts.getD i default).is_healthy
        = false) ∧
    ((r.accounts.getD i default).is_healthy = false →
      ((r.reload_credentials rf).accounts.getD i default).is_healthy
        = false) := by
  refine ⟨ha, ?_, ha, ?_, ?_, ?_⟩
  · simp only [AccountState.record_error]
    split_ifs <;> first | rfl | exact ha
  · simp only [AccountRotator.record_error, AccountState.record_error]
    split_ifs <;> first | rfl | exact ha
  · intro h
    rw [get_next_account_preserves_health]
    exact h
  · intro h
    rw [reload_preserves_health]
    exact h

/-- Witness for `unhealthy_is_permanent` at a concrete input. -/
theorem unhealthy_is_permanent_witness :
    acct_dead.is_healthy = false ∧
    ((acct_dead.record_request 3).is_healthy = false ∧
    (acct_dead.record_error "e" true 3).is_healthy = false ∧
    ((acct_dead.requests_in_window 60 3).1).is_healthy = false ∧
    (rot_dead.record_error acct_dead 429 "e" 3).is_healthy = false ∧
    ((rot_dead.accounts.getD 0 default).is_healthy = false →
      ((rot_dead.get_next_account 3).1.accounts.getD 0
        default).is_healthy = false) ∧
    ((rot_dead.accounts.getD 0 default).is_healthy = false →
      ((rot_dead.reload_credentials (fun _ => none)).accounts.getD 0
        default).is_healthy = false)) :=
  ⟨by decide,
    unhealthy_is_permanent rot_dead acct_dead "e" true 429 60 3 3
      (fun _ => none) 0 (by decide)⟩

/-! ## Round-robin fairness -/

lemma getD_set_self_of_lt {α : Type} (l : List α) (i : ℕ) (b d : α)
    (hl : i < l.length) : (l.set i b).getD i d = b := by
  rw [List.getD_eq_getElem?_getD, List.getElem?_set_self hl]
  rfl

lemma available_indices_eq_range (accs : List AccountState) (now : ℤ)
    (h : ∀ i < accs.length,
      (accs.getD i default).is_available now = true) :
    available_indices accs now = List.range accs.length := by
  apply List.filter_eq_self.mpr
  intro i hi
  exact h i (List.mem_range.mp hi)

lemma rotate_range_perm (c N : ℕ) :
    ((List.range N).map (fun m => (c + m) % N)).Perm (List.range N) := by
  rcases Nat.eq_zero_or_pos N with h0 | hN
  · subst h0
    simp
  · apply List.perm_of_nodup_nodup_toFinset_eq ?_ (List.nodup_range N)
    · ext x
      simp only [List.mem_toFinset, List.mem_map, List.mem_range]
      constructor
      · rintro ⟨m, _, rfl⟩
        exact Nat.mod_lt _ hN
      · intro hx
        by_cases hcx : c % N ≤ x
        · refine ⟨x - c % N, by omega, ?_⟩
          have h1 : (c + (x - c % N)) % N
              = (c % N + (x - c % N) % N) % N := Nat.add_mod _ _ _
          have h2 : (x - c % N) % N = x - c % N :=
            Nat.mod_eq_of_lt (by omega)
          have h3 : c % N + (x - c % N) = x := by omega
          rw [h1, h2, h3, Nat.mod_eq_of_lt hx]
        · have hd : c % N < N := Nat.mod_lt _ hN
          refine ⟨x + N - c % N, by omega, ?_⟩
          have h1 : (c + (x + N - c % N)) % N
              = (c % N + (x + N - c % N) % N) % N := Nat.add_mod _ _ _
          have h2 : (x + N - c % N) % N = x + N - c % N :=
            Nat.mod_eq_of_lt (by omega)
          have h3 : c % N + (x + N - c % N) = x + N := by omega
          rw [h1, h2, h3, Nat.add_mod_right, Nat.mod_eq_of_lt hx]
    · apply List.Nodup.map_on ?_ (List.nodup_range N)
      intro x hx y hy hxy
      have hx' : x < N := List.mem_range.mp hx
      have hy' : y < N := List.mem_range.mp hy
      rcases lt_trichotomy x y with h | h | h
      · exfalso
        have hne2 := mod_shift_ne (c + x) (y - x) N (by omega) (by omega)
        have he : c + x + (y - x) = c + y := by omega
        rw [he] at hne2
        exact hne2 hxy
      · exact h
      · exfalso
        have hne2 := mod_shift_ne (c + y) (x - y) N (by omega) (by omega)
        have he : c + y + (x - y) = c + x := by omega
        rw [he] at hne2
        exact hne2 hxy.symm

lemma serve_trace_fair (accs0 : List AccountState) (c0 maxR : ℕ) (gap : ℤ)
    (hN : 0 < accs0.length)
    (hhealth : ∀ i < accs0.length,
      (accs0.getD i default).is_healthy = true) :
    ∀ (times : List (ℤ × ℤ)) (j : ℕ) (r : AccountRotator),
      r.accounts.length = accs0.length →
      r.max_rpm = maxR →
      r.min_gap_s = gap →
      j + times.length ≤ accs0.length →
      r.current_index % accs0.length = (c0 + j) % accs0.length →
      (∀ i < accs0.length,
        (r.accounts.getD i default).is_healthy
          = (accs0.getD i default).is_healthy ∧
        (r.accounts.getD i default).cooldown_until
          = (accs0.getD i default).cooldown_until) →
      (∀ i < accs0.length, (∀ m < j, i ≠ (c0 + m) % accs0.length) →
        r.accounts.getD i default = accs0.getD i default) →
      (∀ ts ∈ times, ∀ i < accs0.length,
        (accs0.getD i default).cooldown_until < ts.1 ∧
        passes_checks (accs0.getD i default) ts.1 maxR gap = true) →
      (serve_trace r times).2
        = (List.range times.length).map
            (fun m => some ((c0 + j + m) % accs0.length)) ∧
      (times = [] → serve_trace r times = (r, [])) ∧
      (times ≠ [] → (serve_trace r times).1.current_index
        = (c0 + j + times.length) % accs0.length) := by
  intro times
  induction times with
  | nil =>
    intro j r _ _ _ _ _ _ _ _
    exact ⟨rfl, fun _ => rfl, fun hne => absurd rfl hne⟩
  | cons ts rest ih =>
    obtain ⟨t, s⟩ := ts
    intro j r hlen hmax hgap hle hcur hpres horig htimes
    have hlenr : 0 < r.accounts.length := by rw [hlen]; exact hN
    have hav : ∀ i < r.accounts.length,
        (r.accounts.getD i default).is_available t = true := by
      intro i hi
      rw [hlen] at hi
      obtain ⟨hh, hcd⟩ := hpres i hi
      have h0 := htimes (t, s) (List.mem_cons_self _ _) i hi
      unfold AccountState.is_available
      rw [hh, hhealth i hi, hcd, Bool.true_and, decide_eq_true_eq]
      exact h0.1
    have havail : available_indices r.accounts t
        = List.range r.accounts.length :=
      available_indices_eq_range r.accounts t hav
    have hne : available_indices r.accounts t ≠ [] := by
      rw [havail]
      intro hcon
      have hlen0 := congrArg List.length hcon
      rw [List.length_range] at hlen0
      simp only [List.length_nil] at hlen0
      omega
    have hlenav : (available_indices r.accounts t).length
        = accs0.length := by
      rw [havail, List.length_range, hlen]
    have hjlt : j < accs0.length := by
      have := hle
      simp only [List.length_cons] at this
      omega
    have histar_lt : (c0 + j) % accs0.length < accs0.length :=
      Nat.mod_lt _ hN
    have histar : (available_indices r.accounts t).getD
        (r.current_index % (available_indices r.accounts t).length) 0
        = (c0 + j) % accs0.length := by
      have hm : r.current_index % r.accounts.length
          < r.accounts.length := Nat.mod_lt _ hlenr
      rw [havail, List.length_range,
        getD_of_lt _ _ _ (by rw [List.length_range]; exact hm),
        List.getElem_range, hlen]
      exact hcur
    have hunserved : ∀ m < j,
        (c0 + j) % accs0.length ≠ (c0 + m) % accs0.length := by
      intro m hm
      have hne2 := mod_shift_ne (c0 + m) (j - m) accs0.length (by omega)
        (by omega)
      have he : c0 + m + (j - m) = c0 + j := by omega
      rw [he] at hne2
      exact Ne.symm hne2
    have horig_istar :
        r.accounts.getD ((c0 + j) % accs0.length) default
          = accs0.getD ((c0 + j) % accs0.length) default :=
      horig _ histar_lt hunserved
    have hpassi : passes_checks
        (r.accounts.getD ((c0 + j) % accs0.length) default) t
        r.max_rpm r.min_gap_s = true := by
      rw [horig_istar, hmax, hgap]
      exact (htimes (t, s) (List.mem_cons_self _ _) _ histar_lt).2
    have hpass' : passes_checks
        (r.accounts.getD ((available_indices r.accounts t).getD
          (r.current_index % (available_indices r.accounts t).length) 0)
          default) t r.max_rpm r.min_gap_s = true := by
      rw [histar]
      exact hpassi
    have hfuel : (available_indices r.accounts t).length
        = ((available_indices r.accounts t).length - 1) + 1 := by
      rw [hlenav]
      omega
    have hhit := select_loop_hit t r.max_rpm r.min_gap_s
      (available_indices r.accounts t) r.accounts r.current_index
      ((available_indices r.accounts t).length - 1) hpass'
    obtain ⟨hres, hacc, hcuri, hmax1, hgap1⟩ :=
      get_next_account_nonempty r t hne
    have hres2 : (r.get_next_account t).2
        = some ((c0 + j) % accs0.length) := by
      rw [hres, hfuel, hhit, histar]
    have hacc2 : (r.get_next_account t).1.accounts
        = r.accounts.set ((c0 + j) % accs0.length)
            (pruned_by_checks
              (r.accounts.getD ((c0 + j) % accs0.length) default) t
              r.min_gap_s) := by
      rw [hacc, hfuel, hhit, histar]
    have hcur3 : (r.get_next_account t).1.current_index
        = (c0 + j + 1) % accs0.length := by
      rw [hcuri, hfuel, hhit]
      have hstep : (r.current_index + 1) % (available_indices r.accounts
          t).length = (r.current_index % accs0.length + 1)
            % accs0.length := by
        rw [hlenav, Nat.mod_add_mod]
      rw [hstep, hcur, Nat.mod_add_mod]
    set r2 : AccountRotator := { (r.get_next_account t).1 with
        accounts := (r.get_next_account t).1.accounts.set
          ((c0 + j) % accs0.length)
          ((r.get_next_account t).1.record_success
            ((r.get_next_account t).1.accounts.getD
              ((c0 + j) % accs0.length) default) s) } with hr2
    have htrace : serve_trace r ((t, s) :: rest)
        = ((serve_trace r2 rest).1,
            some ((c0 + j) % accs0.length) :: (serve_trace r2 rest).2) := by
      rw [hr2]
      simp only [serve_trace]
      rw [hres2]
    have hinner : (r.get_next_account t).1.accounts.getD
        ((c0 + j) % accs0.length) default
        = pruned_by_checks
            (r.accounts.getD ((c0 + j) % accs0.length) default) t
            r.min_gap_s := by
      rw [hacc2]
      apply getD_set_self_of_lt
      rw [hlen]
      exact histar_lt
    have hr2acc : r2.accounts = r.accounts.set ((c0 + j) % accs0.length)
        ((pruned_by_checks
          (r.accounts.getD ((c0 + j) % accs0.length) default) t
          r.min_gap_s).record_request s) := by
      rw [hr2]
      show (r.get_next_account t).1.accounts.set _ _ = _
      rw [hinner, hacc2, List.set_set]
      rfl
    have hr2c : r2.current_index = (c0 + j + 1) % accs0.length := by
      rw [hr2]
      show (r.get_next_account t).1.current_index = _
      exact hcur3
    have hlen2 : r2.accounts.length = accs0.length := by
      rw [hr2acc, List.length_set, hlen]
    have hmax2 : r2.max_rpm = maxR := by
      rw [hr2]
      show (r.get_next_account t).1.max_rpm = maxR
      rw [hmax1, hmax]
    have hgap2 : r2.min_gap_s = gap := by
      rw [hr2]
      show (r.get_next_account t).1.min_gap_s = gap
      rw [hgap1, hgap]
    have hcur2m : r2.current_index % accs0.length
        = (c0 + (j + 1)) % accs0.length := by
      rw [hr2c, Nat.mod_mod_of_dvd _ dvd_rfl]
      have he : c0 + j + 1 = c0 + (j + 1) := by omega
      rw [he]
    have hpres2 : ∀ i < accs0.length,
        (r2.accounts.getD i default).is_healthy
          = (accs0.getD i default).is_healthy ∧
        (r2.accounts.getD i default).cooldown_until
          = (accs0.getD i default).cooldown_until := by
      intro i hi
      rw [hr2acc]
      rcases eq_or_ne ((c0 + j) % accs0.length) i with heq | hne2
      · rw [← heq,
          getD_set_self_of_lt _ _ _ _ (by rw [hlen]; exact histar_lt)]
        constructor
        · show (r.accounts.getD ((c0 + j) % accs0.length)
              default).is_healthy = _
          exact (hpres _ histar_lt).1
        · show (r.accounts.getD ((c0 + j) % accs0.length)
              default).cooldown_until = _
          exact (hpres _ histar_lt).2
      · rw [getD_set_of_ne _ _ _ _ _ hne2]
        exact hpres i hi
    have horig2 : ∀ i < accs0.length,
        (∀ m < j + 1, i ≠ (c0 + m) % accs0.length) →
        r2.accounts.getD i default = accs0.getD i default := by
      intro i hi hm
      have hi_ne : (c0 + j) % accs0.length ≠ i :=
        fun h => (hm j (by omega)) h.symm
      rw [hr2acc, getD_set_of_ne _ _ _ _ _ hi_ne]
      exact horig i hi (fun m hmj => hm m (by omega))
    have htimes2 : ∀ ts ∈ rest, ∀ i < accs0.length,
        (accs0.getD i default).cooldown_until < ts.1 ∧
        passes_checks (accs0.getD i default) ts.1 maxR gap = true :=
      fun ts hts => htimes ts (List.mem_cons_of_mem _ hts)
    have hle2 : (j + 1) + rest.length ≤ accs0.length := by
      have := hle
      simp only [List.length_cons] at this
      omega
    obtain ⟨ihres, ihnil, ihcur⟩ :=
      ih (j + 1) r2 hlen2 hmax2 hgap2 hle2 hcur2m hpres2 horig2 htimes2
    refine ⟨?_, fun h => absurd h (List.cons_ne_nil _ _), ?_⟩
    · rw [htrace]
      show some ((c0 + j) % accs0.length) :: (serve_trace r2 rest).2 = _
      rw [ihres, List.length_cons, List.range_succ_eq_map, List.map_cons,
        List.map_map]
      have hfun : (fun m => some ((c0 + (j + 1) + m) % accs0.length))
          = ((fun m => some ((c0 + j + m) % accs0.length)) ∘ Nat.succ) := by
        funext m
        simp only [Function.comp_apply]
        have he : c0 + (j + 1) + m = c0 + j + (m + 1) := by omega
        rw [he]
      rw [hfun]
      simp
    · intro _
      rw [htrace]
      show (serve_trace r2 rest).1.current_index = _
      rcases eq_or_ne rest [] with hrest | hrest
      · subst hrest
        rw [ihnil rfl]
        show r2.current_index = _
        rw [hr2c]
        congr 1
      · rw [ihcur hrest]
        congr 1
        simp only [List.length_cons]
        omega

/-- **C5**.  Round-robin fairness: for a pool of N accounts, all available
(healthy, out of cooldown at every call time) and all under their rate
limits at every call time, N consecutive `get_next_account` calls with a
success recorded on the returned account after each call return each of the
N accounts exactly once, in the rotation order determined by the starting
cursor over load order; the cursor advances by one (mod the available
count) per examined account, ending back at its starting position mod N. -/
theorem round_robin_fairness (r : AccountRotator) (times : List (ℤ × ℤ))
    (hlen : times.length = r.accounts.length)
    (hN : 0 < r.accounts.length)
    (hfresh : ∀ a ∈ r.accounts, a.is_healthy = true)
    (hok : ∀ ts ∈ times, ∀ a ∈ r.accounts,
      a.cooldown_until < ts.1 ∧
      passes_checks a ts.1 r.max_rpm r.min_gap_s = true) :
    (serve_trace r times).2
      = (List.range r.accounts.length).map
          (fun m => some ((r.current_index + m) % r.accounts.length)) ∧
    ((List.range r.accounts.length).map
        (fun m => (r.current_index + m) % r.accounts.length)).Perm
      (List.range r.accounts.length) ∧
    (serve_trace r times).1.current_index
      = (r.current_index + r.accounts.length) % r.accounts.length := by
  have hhealth : ∀ i < r.accounts.length,
      (r.accounts.getD i default).is_healthy = true := by
    intro i hi
    rw [getD_of_lt _ _ _ hi]
    exact hfresh _ (List.getElem_mem hi)
  have htimes : ∀ ts ∈ times, ∀ i < r.accounts.length,
      (r.accounts.getD i default).cooldown_until < ts.1 ∧
      passes_checks (r.accounts.getD i default) ts.1 r.max_rpm
        r.min_gap_s = true := by
    intro ts hts i hi
    rw [getD_of_lt _ _ _ hi]
    exact hok ts hts _ (List.getElem_mem hi)
  obtain ⟨h1, -, h3⟩ := serve_trace_fair r.accounts r.current_index
    r.max_rpm r.min_gap_s hN hhealth times 0 r rfl rfl rfl (by omega)
    (by rw [Nat.add_zero]) (fun i _ => ⟨rfl, rfl⟩) (fun i _ _ => rfl)
    htimes
  have hfun : (fun m => some ((r.current_index + 0 + m)
      % r.accounts.length))
      = (fun m => some ((r.current_index + m) % r.accounts.length)) := by
    funext m
    rw [Nat.add_zero]
  have hA : (serve_trace r times).2
      = (List.range r.accounts.length).map
          (fun m => some ((r.current_index + m) % r.accounts.length)) := by
    rw [h1, hlen, hfun]
  have htne : times ≠ [] := by
    intro hcon
    rw [hcon] at hlen
    simp only [List.length_nil] at hlen
    omega
  refine ⟨hA, rotate_range_perm _ _, ?_⟩
  rw [h3 htne, hlen, Nat.add_zero]

/-- Witness for `round_robin_fairness` at a concrete input: three fresh
accounts, cursor starting at 2, three calls. -/
theorem round_robin_fairness_witness :
    (times_three.length = rot_three.accounts.length ∧
      0 < rot_three.accounts.length ∧
      (∀ a ∈ rot_three.accounts, a.is_healthy = true) ∧
      (∀ ts ∈ times_three, ∀ a ∈ rot_three.accounts,
        a.cooldown_until < ts.1 ∧
        passes_checks a ts.1 rot_three.max_rpm rot_three.min_gap_s
          = true)) ∧
    ((serve_trace rot_three times_three).2
      = (List.range rot_three.accounts.length).map
          (fun m => some ((rot_three.current_index + m)
            % rot_three.accounts.length)) ∧
    ((List.range rot_three.accounts.length).map
        (fun m => (rot_three.current_index + m)
          % rot_three.accounts.length)).Perm
      (List.range rot_three.accounts.length) ∧
    (serve_trace rot_three times_three).1.current_index
      = (rot_three.current_index + rot_three.accounts.length)
        % rot_three.accounts.length) :=
  ⟨⟨by decide, by decide, by decide, by decide⟩,
    round_robin_fairness rot_three times_three (by decide) (by decide)
      (by decide) (by decide)⟩
